import Mathlib

/-!
Shallow embedding of `torch/csrc/distributed/c10d/CUDASymmetricMemory-inl.h`
(namespace `c10d::symmetric_memory`): the alignment probe, the memory-ordering
enum, the CAS primitive and its signal put/wait spin loops, the block
synchronization protocol `sync_remote_blocks`, and the multicast
load-reduce / store operations with their build-configuration gating.

Machine integers are modelled as `Nat`; the signal-pad words are 32-bit and
hold only the values 0 and 1 in every reachable state, so no overflow arises.
Compile-time template dispatch (`if constexpr`, explicit specialization,
`static_assert(dependent_false ...)`) is modelled by `Option`- or
outcome-valued resolution functions: a `none` / compile-error result means
the instantiation does not compile.
-/

namespace c10d.symmetric_memory

/-- Source: `constexpr size_t max_num_threads_per_block = 1024;`. -/
def max_num_threads_per_block : Nat := 1024

/-- Source: `constexpr size_t max_num_blocks = 8;`. -/
def max_num_blocks : Nat := 8

/-- Source: `get_alignment(T ptr_or_size)`.  The bit pattern of the pointer
or size is tested against 16 / 8 / 4 / 2 in that order; the first divisor
found is returned, else 1.  The `size_t` specialization reinterprets the size
as a pointer and calls the generic version, so it computes the same
function of the numeric value. -/
def get_alignment (val : Nat) : Nat :=
  if val % 16 = 0 then 16
  else if val % 8 = 0 then 8
  else if val % 4 = 0 then 4
  else if val % 2 = 0 then 2
  else 1

/-- Source: `enum class MemOpSem { Relaxed, Acquire, Release, AcqRel }`. -/
inductive MemOpSem where
  | Relaxed
  | Acquire
  | Release
  | AcqRel
deriving DecidableEq, Repr

/-- The `if constexpr` chain of `cas<Sem>` maps a supported ordering token to
the PTX ordering suffix spliced into `atom.global<sem>.sys.cas.b32`; the
final `else` branch is `static_assert(dependent_false_nt<Sem>)`, i.e. the
`AcqRel` instantiation does not compile, modelled as `none`. -/
def casSuffix : MemOpSem → Option String
  | .Relaxed => some ".relaxed"
  | .Acquire => some ".acquire"
  | .Release => some ".release"
  | .AcqRel  => none

/-- Whether `cas<Sem>` compiles (the ordering token has a suffix branch). -/
def casDefined (sem : MemOpSem) : Bool := (casSuffix sem).isSome

/-- Semantics of the single hardware instruction
`atom.global.sys.cas.b32 old, [addr], compare, val`: the word at the address
is compared with `compare`; on equality `val` is written, otherwise the word
is left unchanged; the value observed before the attempt is returned.
Result: `(new word value, returned old value)`. -/
def casStep (word compare val : Nat) : Nat × Nat :=
  (if word = compare then val else word, word)

/-- Source: `cas<Sem>(addr, compare, val)` on the non-ROCm,
`__CUDA_ARCH__ >= 800` path: a single hardware CAS with the ordering selected
by `Sem`, or `none` when the instantiation hits the `static_assert`. -/
def cas (sem : MemOpSem) (word compare val : Nat) : Option (Nat × Nat) :=
  if casDefined sem then some (casStep word compare val) else none

/-- Source: `put_signal<Sem>(addr)`, body `while (cas<Sem>(addr, 0, 1) != 0);`
— spins until its own CAS observes 0 (and hence writes 1).  The spin loop is
given explicit fuel; `none` means the loop has not terminated within the fuel
(or the `cas` instantiation does not compile).  Returns the final word
value. -/
def put_signal (sem : MemOpSem) : Nat → Nat → Option Nat
  | 0, _ => none
  | fuel + 1, word =>
    match cas sem word 0 1 with
    | none => none
    | some (wordAfter, old) =>
      if old = 0 then some wordAfter else put_signal sem fuel wordAfter

/-- Source: `wait_signal<Sem>(addr)`, body `while (cas<Sem>(addr, 1, 0) != 1);`
— spins until its own CAS observes 1 (and hence writes 0). -/
def wait_signal (sem : MemOpSem) : Nat → Nat → Option Nat
  | 0, _ => none
  | fuel + 1, word =>
    match cas sem word 1 0 with
    | none => none
    | some (wordAfter, old) =>
      if old = 1 then some wordAfter else wait_signal sem fuel wordAfter

/-- One matched put/wait epoch per iteration on a single slot, starting from
`word`: the producer's `put_signal` (one CAS attempt of fuel is enough from a
clear slot) followed by the consumer's `wait_signal`.  Returns the final slot
value and the trace of slot values observed after each primitive returns. -/
def runEpochs (sem : MemOpSem) : Nat → Nat → Option (Nat × List Nat)
  | 0, word => some (word, [])
  | n + 1, word =>
    match put_signal sem 1 word with
    | none => none
    | some w1 =>
      match wait_signal sem 1 w1 with
      | none => none
      | some w2 =>
        match runEpochs sem n w2 with
        | none => none
        | some (wf, tr) => some (wf, w1 :: w2 :: tr)

/-- Expected slot-value trace of `n` complete epochs: 1, 0, 1, 0, ... -/
def altern : Nat → List Nat
  | 0 => []
  | n + 1 => 1 :: 0 :: altern n

/-- Which signal primitive a thread of `sync_remote_blocks` executes. -/
inductive SigOp where
  | put
  | wait
deriving DecidableEq, Repr

/-- Ordering tokens a `sync_remote_blocks` specialization passes to
`put_signal` and `wait_signal` respectively. -/
structure SyncSpec where
  putSem : MemOpSem
  waitSem : MemOpSem
deriving DecidableEq, Repr

/-- Source: the primary template of `sync_remote_blocks<Sem>` is declared but
never defined; only the `Relaxed` and `AcqRel` explicit specializations
exist.  `Relaxed` calls `put_signal<Relaxed>` / `wait_signal<Relaxed>`;
`AcqRel` calls `put_signal<Release>` / `wait_signal<Acquire>`.  `none` means
the instantiation is undefined (unusable). -/
def sync_remote_blocks : MemOpSem → Option SyncSpec
  | .Relaxed => some ⟨.Relaxed, .Relaxed⟩
  | .AcqRel  => some ⟨.Release, .Acquire⟩
  | _ => none

/-- One signal-pad access performed by a thread of `sync_remote_blocks`:
which primitive, with which ordering token, on which rank's pad
(`signal_pads[pad]`), at which word offset within that pad. -/
structure SlotAccess where
  op : SigOp
  sem : MemOpSem
  pad : Nat
  off : Nat
deriving DecidableEq, Repr

/-- The body shared by both `sync_remote_blocks` specializations, per thread:
`if (threadIdx.x < world_size)` the thread (with `target_rank = threadIdx.x`)
performs `put_signal` on `signal_pads[target_rank] + blockIdx.x * world_size
+ rank`, then `wait_signal` on `signal_pads[rank] + blockIdx.x * world_size +
target_rank`; otherwise it performs no access at all. -/
def syncThreadAccesses (spec : SyncSpec) (blockIdx world_size rank tid : Nat) :
    List SlotAccess :=
  if tid < world_size then
    [⟨.put, spec.putSem, tid, blockIdx * world_size + rank⟩,
     ⟨.wait, spec.waitSem, rank, blockIdx * world_size + tid⟩]
  else []

/-- Element types over which the multicast operations may be instantiated.
`bf16` is `at::BFloat16` and `f32` is `float`, the two types named in the
`SPECIALIZE_MULTIMEM_LD_REDUCE_VEC_32` invocations; the remaining
constructors stand for representative other C++ types (`at::Half`, `double`,
`int32_t`, `uint32_t`), for which only the primary template exists. -/
inductive CElemType where
  | bf16
  | f32
  | f16
  | f64
  | i32
  | u32
deriving DecidableEq, Repr

/-- The PTX element-type suffix of the `MultimemLdReduce<T>` specialization
for `T`, when one exists: the source invokes the specialization macro exactly
for `(at::BFloat16, "bf16x2")` and `(float, "f32")`; every other `T` resolves
to the primary template, whose body is `static_assert(dependent_false<T>)`
(modelled as `none`). -/
def ldReduceAsmType : CElemType → Option String
  | .bf16 => some "bf16x2"
  | .f32  => some "f32"
  | _ => none

/-- Whether `union Vec<Alignment>` is defined: the source specializes the
(otherwise declared-only) union exactly for sizes 4, 8 and 16. -/
def vecDefined (alignment : Nat) : Bool :=
  alignment = 4 || alignment = 8 || alignment = 16

/-- Build/hardware configuration the preprocessor sees: whether this is a
ROCm build, the `__CUDA_ARCH__` value of the device pass (if defined), and
`CUDART_VERSION`. -/
structure BuildConfig where
  use_rocm : Bool
  cuda_arch : Option Nat
  cudart_version : Nat
deriving DecidableEq, Repr

/-- Source: `NVCC_SUPPORTS_MULTICAST` is defined iff `__CUDA_ARCH__` is
defined, at least 900, and `CUDART_VERSION >= 12010`. -/
def nvcc_supports_multicast (c : BuildConfig) : Bool :=
  match c.cuda_arch with
  | some arch => decide (900 ≤ arch) && decide (12010 ≤ c.cudart_version)
  | none => false

/-- The preprocessor condition selecting the fallback (aborting) bodies for
the multicast operations: `defined(USE_ROCM) || !defined(NVCC_SUPPORTS_MULTICAST)`. -/
def multicastFallback (c : BuildConfig) : Bool :=
  c.use_rocm || !nvcc_supports_multicast c

/-- Outcome of instantiating and executing a device-side template operation:
it fails to compile (no specialization / `static_assert`), it reaches
`CUDA_KERNEL_ASSERT(false)` (fatal device-side abort: no value is returned
and no memory is written), or it emits the given hardware instruction. -/
inductive Instantiation (α : Type) where
  | compileError : Instantiation α
  | runtimeAssert : Instantiation α
  | emits : α → Instantiation α
deriving DecidableEq, Repr

/-- The `if constexpr (Alignment == ...)` chain of the supported-path
`MultimemLdReduce<T>` specialization body: the PTX instruction emitted for a
given element suffix and vector alignment. -/
def ldReduceAsm (asm_type : String) (alignment : Nat) : Option String :=
  if alignment = 16 then
    some ("multimem.ld_reduce.relaxed.sys.global.add.v4." ++ asm_type)
  else if alignment = 8 then
    some ("multimem.ld_reduce.relaxed.sys.global.add.v2." ++ asm_type)
  else if alignment = 4 then
    some ("multimem.ld_reduce.relaxed.sys.global.add." ++ asm_type)
  else none

/-- Source: `multimem_ld_reduce_add<Alignment, T>(mc_ptr)` constructs
`MultimemLdReduce<T>` and calls its `operator()<Alignment>`.  Instantiation
fails if `Vec<Alignment>` is undefined or `T` has no specialization (primary
template `static_assert`); under the fallback build configuration every
specialized body is `CUDA_KERNEL_ASSERT(false)`; otherwise the body emits the
vectorized `multimem.ld_reduce` instruction. -/
def multimem_ld_reduce_add (c : BuildConfig) (t : CElemType) (alignment : Nat) :
    Instantiation String :=
  if !vecDefined alignment then .compileError
  else
    match ldReduceAsmType t with
    | none => .compileError
    | some asm_ty =>
      if multicastFallback c then .runtimeAssert
      else
        match ldReduceAsm asm_ty alignment with
        | some s => .emits s
        | none => .compileError

/-- The `if constexpr (Alignment == ...)` chain of `multimem_st`'s supported
path; the trailing `else` is `static_assert(dependent_false<T>)`. -/
def stAsm (alignment : Nat) : Option String :=
  if alignment = 16 then some "multimem.st.relaxed.sys.global.v4.f32"
  else if alignment = 8 then some "multimem.st.relaxed.sys.global.v2.f32"
  else if alignment = 4 then some "multimem.st.relaxed.sys.global.f32"
  else none

/-- Source: `multimem_st<Alignment, T>(mc_ptr, vec)`.  Under the fallback
build configuration the whole body is `CUDA_KERNEL_ASSERT(false)`; otherwise
the alignment chain emits the `multimem.st` instruction, with a
`static_assert` for alignments outside 4/8/16 (also `Vec<Alignment>` in the
signature only exists for those sizes). -/
def multimem_st (c : BuildConfig) (alignment : Nat) : Instantiation String :=
  if !vecDefined alignment then .compileError
  else if multicastFallback c then .runtimeAssert
  else
    match stAsm alignment with
    | some s => .emits s
    | none => .compileError

end c10d.symmetric_memory

namespace c10d.symmetric_memory

/-- Helper: a terminating `put_signal` spin can only have ended by observing
0 on a slot that held 0 from the start (no earlier failing attempt changes
the word), and it leaves the slot at 1. -/
theorem put_signal_some (sem : MemOpSem) :
    ∀ fuel word r, put_signal sem fuel word = some r → word = 0 ∧ r = 1 := by
  intro fuel
  induction fuel with
  | zero => intro word r h; simp [put_signal] at h
  | succ n ih =>
    intro word r h
    by_cases hd : casDefined sem = true
    · by_cases hw : word = 0
      · subst hw
        simp [put_signal, cas, casStep, hd] at h
        exact ⟨rfl, h.symm⟩
      · simp [put_signal, cas, casStep, hd, hw] at h
        exact absurd (ih word r h).1 hw
    · simp [put_signal, cas, hd] at h

/-- Helper: a terminating `wait_signal` spin can only have ended by observing
1 on a slot that held 1 from the start, and it leaves the slot at 0. -/
theorem wait_signal_some (sem : MemOpSem) :
    ∀ fuel word r, wait_signal sem fuel word = some r → word = 1 ∧ r = 0 := by
  intro fuel
  induction fuel with
  | zero => intro word r h; simp [wait_signal] at h
  | succ n ih =>
    intro word r h
    by_cases hd : casDefined sem = true
    · by_cases hw : word = 1
      · subst hw
        simp [wait_signal, cas, casStep, hd] at h
        exact ⟨rfl, h.symm⟩
      · simp [wait_signal, cas, casStep, hd, hw] at h
        exact absurd (ih word r h).1 hw
    · simp [wait_signal, cas, hd] at h

/-- Helper: from a clear slot, `n` matched put/wait epochs all complete and
the slot-value trace is the strict alternation 1,0,1,0,... -/
theorem runEpochs_alternation (sem : MemOpSem) (hd : casDefined sem = true) :
    ∀ n, runEpochs sem n 0 = some (0, altern n) := by
  intro n
  induction n with
  | zero => simp [runEpochs, altern]
  | succ k ih =>
    simp [runEpochs, put_signal, wait_signal, cas, casStep, hd, ih, altern]

/-- Helper: slot offsets used by distinct block indices never collide:
`b1 * ws + x1 ≠ b2 * ws + x2` when `b1 ≠ b2` and both in-pad offsets are
below `ws`. -/
theorem block_slot_ne {ws b1 b2 x1 x2 : Nat} (hb : b1 ≠ b2)
    (hx1 : x1 < ws) (hx2 : x2 < ws) :
    b1 * ws + x1 ≠ b2 * ws + x2 := by
  have key : ∀ a1 a2 y1 y2 : Nat, a1 < a2 → y1 < ws →
      a1 * ws + y1 < a2 * ws + y2 := by
    intro a1 a2 y1 y2 ha hy
    have h1 : a1 * ws + y1 < (a1 + 1) * ws := by
      have := Nat.add_lt_add_left hy (a1 * ws)
      calc a1 * ws + y1 < a1 * ws + ws := this
        _ = (a1 + 1) * ws := by ring
    have h2 : (a1 + 1) * ws ≤ a2 * ws := Nat.mul_le_mul_right ws ha
    exact lt_of_lt_of_le h1 (h2.trans (Nat.le_add_right _ _))
  rcases Nat.lt_trichotomy b1 b2 with h | h | h
  · exact Nat.ne_of_lt (key b1 b2 x1 x2 h hx1)
  · exact absurd h hb
  · exact (Nat.ne_of_lt (key b2 b1 x2 x1 h hx2)).symm

/-- C6: `get_alignment` is total and returns, for every input value, exactly
the largest element of {16, 8, 4, 2, 1} that divides the value; in particular
it returns 16 at 0. -/
theorem get_alignment_spec (n : Nat) :
    get_alignment n ∈ ([16, 8, 4, 2, 1] : List Nat) ∧
    get_alignment n ∣ n ∧
    (∀ d ∈ ([16, 8, 4, 2, 1] : List Nat), d ∣ n → d ≤ get_alignment n) ∧
    get_alignment 0 = 16 := by
  refine ⟨?_, ?_, ?_, by norm_num [get_alignment]⟩
  · unfold get_alignment; split_ifs <;> simp
  · unfold get_alignment; split_ifs with h16 h8 h4 h2
    · exact Nat.dvd_of_mod_eq_zero h16
    · exact Nat.dvd_of_mod_eq_zero h8
    · exact Nat.dvd_of_mod_eq_zero h4
    · exact Nat.dvd_of_mod_eq_zero h2
    · exact Nat.one_dvd n
  · intro d hd hdvd
    unfold get_alignment
    split_ifs with h16 h8 h4 h2 <;> fin_cases hd <;> omega

/-- Witness for C6 at the concrete inputs 48 (alignment 16, and 16 is
attained as an upper bound) and 0 (treated as maximally aligned). -/
theorem get_alignment_spec_witness :
    get_alignment 48 ∣ 48 ∧ 16 ≤ get_alignment 48 ∧ get_alignment 0 = 16 :=
  ⟨(get_alignment_spec 48).2.1,
   (get_alignment_spec 48).2.2.1 16 (by decide) (by decide),
   (get_alignment_spec 0).2.2.2⟩

/-- C1 counterexample: the claim says `cas<Sem>` is defined for every token
in {Relaxed, Acquire, Release, AcqRel}, but the `AcqRel` instantiation falls
into the `static_assert(dependent_false_nt<Sem>)` branch: it has no ordering
suffix and does not compile. -/
theorem cas_acqrel_undefined :
    casDefined MemOpSem.AcqRel = false ∧ casSuffix MemOpSem.AcqRel = none :=
  ⟨rfl, rfl⟩

/-- C1 (amended): `cas<Sem>` is defined exactly for the three tokens Relaxed,
Acquire, Release; each such instantiation is a single hardware CAS carrying
that token's ordering suffix, and it always returns the word value observed
at the address before the attempt. -/
theorem cas_supported_semantics (sem : MemOpSem) (h : sem ≠ MemOpSem.AcqRel) :
    casDefined sem = true ∧
    casSuffix sem = some (match sem with
      | .Relaxed => ".relaxed"
      | .Acquire => ".acquire"
      | _ => ".release") ∧
    ∀ word compare val : Nat,
      cas sem word compare val = some (casStep word compare val) ∧
      (casStep word compare val).2 = word := by
  have hd : casDefined sem = true := by
    cases sem <;> first | rfl | exact absurd rfl h
  refine ⟨hd, ?_, ?_⟩
  · cases sem <;> first | rfl | exact absurd rfl h
  · intro word compare val
    exact ⟨by simp [cas, hd], rfl⟩

/-- Witness for C1 (amended) at the Acquire token on the concrete word 5
compared against 7: the CAS fails, leaves the word, and returns 5. -/
theorem cas_supported_semantics_witness :
    casDefined MemOpSem.Acquire = true ∧
    cas MemOpSem.Acquire 5 7 9 = some (casStep 5 7 9) ∧
    (casStep 5 7 9).2 = 5 :=
  ⟨(cas_supported_semantics MemOpSem.Acquire (by decide)).1,
   (cas_supported_semantics MemOpSem.Acquire (by decide)).2.2 5 7 9⟩

/-- C2: in a block synchronization call, a thread with local id `tid` below
`world_size` first puts on slot `blockIdx * world_size + rank` of rank
`tid`'s signal pad, then waits on slot `blockIdx * world_size + tid` of its
own rank's pad; a thread with `tid ≥ world_size` performs no access at
all. -/
theorem sync_thread_accesses_spec
    (spec : SyncSpec) (blockIdx ws rank tid : Nat) :
    (tid < ws →
      syncThreadAccesses spec blockIdx ws rank tid =
        [⟨.put, spec.putSem, tid, blockIdx * ws + rank⟩,
         ⟨.wait, spec.waitSem, rank, blockIdx * ws + tid⟩]) ∧
    (ws ≤ tid → syncThreadAccesses spec blockIdx ws rank tid = []) := by
  constructor
  · intro h; simp [syncThreadAccesses, h]
  · intro h; simp [syncThreadAccesses, Nat.not_lt.mpr h]

/-- Witness for C2 with world size 2, rank 0, block 1: thread 1
participates with its put-then-wait pair, thread 5 does nothing. -/
theorem sync_thread_accesses_spec_witness :
    syncThreadAccesses ⟨MemOpSem.Relaxed, MemOpSem.Relaxed⟩ 1 2 0 1 =
      [⟨SigOp.put, MemOpSem.Relaxed, 1, 1 * 2 + 0⟩,
       ⟨SigOp.wait, MemOpSem.Relaxed, 0, 1 * 2 + 1⟩] ∧
    syncThreadAccesses ⟨MemOpSem.Relaxed, MemOpSem.Relaxed⟩ 1 2 0 5 = [] :=
  ⟨(sync_thread_accesses_spec ⟨MemOpSem.Relaxed, MemOpSem.Relaxed⟩ 1 2 0 1).1
      (by decide),
   (sync_thread_accesses_spec ⟨MemOpSem.Relaxed, MemOpSem.Relaxed⟩ 1 2 0 5).2
      (by decide)⟩

/-- C3: for any ordering whose `cas` compiles, `put_signal` returns only
after one of its own CAS attempts observes 0 (transitioning the slot 0 → 1),
`wait_signal` returns only after observing 1 (transitioning 1 → 0), and over
any number of repeated matched put/wait epochs on one slot starting clear,
the slot-value sequence is the alternation 1, 0, 1, 0, ... with no lost or
duplicated transitions. -/
theorem signal_epochs_alternate (sem : MemOpSem) (hd : casDefined sem = true) :
    (∀ fuel word r, put_signal sem fuel word = some r → word = 0 ∧ r = 1) ∧
    (∀ fuel word r, wait_signal sem fuel word = some r → word = 1 ∧ r = 0) ∧
    (∀ n, runEpochs sem n 0 = some (0, altern n)) :=
  ⟨put_signal_some sem, wait_signal_some sem, runEpochs_alternation sem hd⟩

/-- Witness for C3 at the Relaxed token: three epochs from a clear slot
produce the trace 1,0,1,0,1,0 and end clear. -/
theorem signal_epochs_alternate_witness :
    runEpochs MemOpSem.Relaxed 3 0 = some (0, [1, 0, 1, 0, 1, 0]) := by
  have h := (signal_epochs_alternate MemOpSem.Relaxed rfl).2.2 3
  simpa [altern] using h

/-- C4: a CAS attempt of either signal primitive maps a slot holding 0 or 1
to a slot holding 0 or 1 (the invariant is preserved by every attempt,
successful or not), and one completed put/wait epoch from a clear slot
completes and leaves the slot clear again. -/
theorem slot_invariant_and_epoch_restore (word : Nat) :
    ((word = 0 ∨ word = 1) →
      ((casStep word 0 1).1 = 0 ∨ (casStep word 0 1).1 = 1) ∧
      ((casStep word 1 0).1 = 0 ∨ (casStep word 1 0).1 = 1)) ∧
    (∀ sem, casDefined sem = true → runEpochs sem 1 0 = some (0, [1, 0])) := by
  constructor
  · rintro (rfl | rfl) <;> simp [casStep]
  · intro sem hd
    have h := runEpochs_alternation sem hd 1
    simpa [altern] using h

/-- Witness for C4 at slot value 1 and the Release token. -/
theorem slot_invariant_and_epoch_restore_witness :
    (((casStep 1 0 1).1 = 0 ∨ (casStep 1 0 1).1 = 1) ∧
      ((casStep 1 1 0).1 = 0 ∨ (casStep 1 1 0).1 = 1)) ∧
    runEpochs MemOpSem.Release 1 0 = some (0, [1, 0]) :=
  ⟨(slot_invariant_and_epoch_restore 1).1 (by decide),
   (slot_invariant_and_epoch_restore 1).2 MemOpSem.Release rfl⟩

/-- C5: the Relaxed specialization of `sync_remote_blocks` uses Relaxed
ordering for both its put and its wait; the AcqRel specialization uses
Release for the put and Acquire for the wait. -/
theorem sync_ordering_selection :
    sync_remote_blocks MemOpSem.Relaxed =
      some ⟨MemOpSem.Relaxed, MemOpSem.Relaxed⟩ ∧
    sync_remote_blocks MemOpSem.AcqRel =
      some ⟨MemOpSem.Release, MemOpSem.Acquire⟩ :=
  ⟨rfl, rfl⟩

/-- C7: for any build configuration and any supported vector alignment,
instantiating `multimem_ld_reduce_add` fails to compile exactly when the
element type is outside the closed set {BFloat16, float} (the primary
template's `static_assert`); for the two enumerated types it never falls
back to a compile error — the outcome is runtime behavior (the hardware
instruction, or the configured abort), never runtime type dispatch. -/
theorem ld_reduce_closed_type_set
    (c : BuildConfig) (t : CElemType) (alignment : Nat)
    (ha : vecDefined alignment = true) :
    multimem_ld_reduce_add c t alignment = Instantiation.compileError ↔
      (t ≠ CElemType.bf16 ∧ t ≠ CElemType.f32) := by
  have ha4 : alignment = 4 ∨ alignment = 8 ∨ alignment = 16 := by
    simpa [vecDefined, or_assoc] using ha
  by_cases hm : multicastFallback c = true <;>
    rcases ha4 with rfl | rfl | rfl <;>
      cases t <;>
        simp [multimem_ld_reduce_add, ldReduceAsmType, ldReduceAsm,
          vecDefined, hm]

/-- Witness for C7: with multicast available, `at::Half` (no specialization)
is rejected at compile time while `float` is not, at alignment 8. -/
theorem ld_reduce_closed_type_set_witness :
    multimem_ld_reduce_add ⟨false, some 900, 12010⟩ CElemType.f16 8 =
      Instantiation.compileError ∧
    multimem_ld_reduce_add ⟨false, some 900, 12010⟩ CElemType.f32 8 ≠
      Instantiation.compileError :=
  ⟨(ld_reduce_closed_type_set ⟨false, some 900, 12010⟩ CElemType.f16 8
      (by decide)).2 (by decide),
   fun hc =>
    ((ld_reduce_closed_type_set ⟨false, some 900, 12010⟩ CElemType.f32 8
      (by decide)).1 hc).2 rfl⟩

/-- C8: on a build configuration lacking multicast support (a ROCm build, or
no multicast-capable `__CUDA_ARCH__`), every instantiation of
`multimem_ld_reduce_add` at a supported element type and of `multimem_st`,
for every vector width in {4, 8, 16}, reaches `CUDA_KERNEL_ASSERT(false)` —
a fatal device-side abort that returns no value and writes no memory. -/
theorem multicast_unsupported_aborts
    (c : BuildConfig) (t : CElemType) (alignment : Nat)
    (hcfg : c.use_rocm = true ∨ nvcc_supports_multicast c = false)
    (ha : alignment = 4 ∨ alignment = 8 ∨ alignment = 16)
    (ht : t = CElemType.bf16 ∨ t = CElemType.f32) :
    multimem_ld_reduce_add c t alignment = Instantiation.runtimeAssert ∧
    multimem_st c alignment = Instantiation.runtimeAssert := by
  have hm : multicastFallback c = true := by
    rcases hcfg with h | h <;> simp [multicastFallback, h]
  rcases ha with rfl | rfl | rfl <;> rcases ht with rfl | rfl <;>
    simp [multimem_ld_reduce_add, multimem_st, ldReduceAsmType, vecDefined, hm]

/-- Witness for C8 on a ROCm build at element type float and width 16. -/
theorem multicast_unsupported_aborts_witness :
    multimem_ld_reduce_add ⟨true, some 900, 12010⟩ CElemType.f32 16 =
      Instantiation.runtimeAssert ∧
    multimem_st ⟨true, some 900, 12010⟩ 16 = Instantiation.runtimeAssert :=
  multicast_unsupported_aborts ⟨true, some 900, 12010⟩ CElemType.f32 16
    (Or.inl rfl) (Or.inr (Or.inr rfl)) (Or.inr rfl)

/-- C9: with `rank < world_size`, every signal-pad access of a block
synchronization call at block index `b` lies in the offset window
`[b * ws, (b + 1) * ws)` of some pad, and two calls at different block
indices never touch a common (pad, offset) slot. -/
theorem sync_blocks_disjoint
    (spec : SyncSpec) (ws b1 b2 rank1 rank2 tid1 tid2 : Nat)
    (h1 : rank1 < ws) (h2 : rank2 < ws) (hb : b1 ≠ b2) :
    (∀ a ∈ syncThreadAccesses spec b1 ws rank1 tid1,
      b1 * ws ≤ a.off ∧ a.off < (b1 + 1) * ws) ∧
    (∀ a1 ∈ syncThreadAccesses spec b1 ws rank1 tid1,
     ∀ a2 ∈ syncThreadAccesses spec b2 ws rank2 tid2,
      a1.pad ≠ a2.pad ∨ a1.off ≠ a2.off) := by
  constructor
  · intro a ha
    by_cases ht : tid1 < ws
    · simp [syncThreadAccesses, ht] at ha
      rcases ha with rfl | rfl <;> simp
      · calc b1 * ws + rank1 < b1 * ws + ws := Nat.add_lt_add_left h1 _
          _ = (b1 + 1) * ws := by ring
      · calc b1 * ws + tid1 < b1 * ws + ws := Nat.add_lt_add_left ht _
          _ = (b1 + 1) * ws := by ring
    · simp [syncThreadAccesses, ht] at ha
  · intro a1 ha1 a2 ha2
    by_cases ht1 : tid1 < ws
    · by_cases ht2 : tid2 < ws
      · simp [syncThreadAccesses, ht1, ht2] at ha1 ha2
        rcases ha1 with rfl | rfl <;> rcases ha2 with rfl | rfl <;>
          exact Or.inr (block_slot_ne hb (by omega) (by omega))
      · simp [syncThreadAccesses, ht2] at ha2
    · simp [syncThreadAccesses, ht1] at ha1

/-- Witness for C9: world size 2, blocks 0 and 1, the concrete put accesses
of thread 1 of rank 0 (block 0) and thread 0 of rank 1 (block 1). -/
theorem sync_blocks_disjoint_witness :
    (SlotAccess.mk SigOp.put MemOpSem.Relaxed 1 (0 * 2 + 0)).pad ≠
        (SlotAccess.mk SigOp.put MemOpSem.Relaxed 0 (1 * 2 + 1)).pad ∨
      (SlotAccess.mk SigOp.put MemOpSem.Relaxed 1 (0 * 2 + 0)).off ≠
        (SlotAccess.mk SigOp.put MemOpSem.Relaxed 0 (1 * 2 + 1)).off :=
  (sync_blocks_disjoint ⟨MemOpSem.Relaxed, MemOpSem.Relaxed⟩ 2 0 1 0 1 1 0
      (by decide) (by decide) (by decide)).2
    (SlotAccess.mk SigOp.put MemOpSem.Relaxed 1 (0 * 2 + 0)) (by decide)
    (SlotAccess.mk SigOp.put MemOpSem.Relaxed 0 (1 * 2 + 1)) (by decide)

/-- C10: `sync_remote_blocks` resolves to a definition exactly for the
Relaxed and AcqRel tokens; the Acquire and Release instantiations refer to
the declared-but-undefined primary template and are unusable. -/
theorem sync_defined_only_relaxed_acqrel (sem : MemOpSem) :
    (sync_remote_blocks sem).isSome = true ↔
      sem = MemOpSem.Relaxed ∨ sem = MemOpSem.AcqRel := by
  cases sem <;> simp [sync_remote_blocks]

end c10d.symmetric_memory
